import Mathlib

/-!
Verification development for the exchange matching-engine adapter.

Shallow embedding of `apps/backend/src/engine/adapter/book_manager_adapter.rs`,
`orderbook_adapter.rs`, `price_converter.rs` and `errors.rs`:

* `u128`/`u64` machine integers are modelled as `Nat`; the one place where
  truncation matters (the `as u64` cast in `PriceConverter`) carries an
  explicit `% 2 ^ 64`, and `ticks_to_price`/`lots_to_size` reduce `% 2 ^ 128`
  as the Rust multiplication is performed in `u128`.  `saturating_sub` is
  exactly `Nat` subtraction.
* `Uuid` is modelled as `Nat`, `chrono` timestamps as `Nat` microseconds,
  addresses and market ids as `String`.
* The `DashMap`/`HashMap` stores are modelled as association lists with
  lookup/insert/erase primitives (`alookup`/`ainsert`/`aerase`); hash-map
  iteration order is arbitrary in the source, here it is the entry order of
  the association list.
* The external `orderbook_rs` book is modelled at the interface used by the
  adapter: the set of resting order ids per market (`add_limit_order`
  appends an id, `cancel_order` removes it).  No claim inspects more of the
  external book than membership.
-/

namespace Exchange

/-- `Side` from `models::domain` (fixed by its uses in the adapter). -/
inductive Side where
  | Buy
  | Sell
deriving DecidableEq, Repr

/-- `OrderType` from `models::domain`. -/
inductive OrderType where
  | Limit
  | Market
deriving DecidableEq, Repr

/-- `OrderStatus` from `models::domain`. -/
inductive OrderStatus where
  | Pending
  | PartiallyFilled
  | Filled
  | Cancelled
deriving DecidableEq, Repr

/-- Domain `Order` (fields fixed by the struct literals in the adapter and
its tests: id, user_address, market_id, price, size, side, order_type,
status, filled_size, created_at, updated_at). -/
structure Order where
  id : Nat
  user_address : String
  market_id : String
  price : Nat
  size : Nat
  side : Side
  order_type : OrderType
  status : OrderStatus
  filled_size : Nat
  created_at : Nat
  updated_at : Nat
deriving DecidableEq, Repr

/-- Domain `Market` (fields fixed by `make_btc_market` etc.). -/
structure Market where
  id : String
  base_ticker : String
  quote_ticker : String
  tick_size : Nat
  lot_size : Nat
  min_size : Nat
  maker_fee_bps : Nat
  taker_fee_bps : Nat
deriving DecidableEq, Repr

/-- Domain `Match` as constructed in `BookManagerAdapter::match_order`. -/
structure Match where
  maker_order : Order
  price : Nat
  size : Nat
deriving DecidableEq, Repr

/-- Domain `Trade` as constructed in `BookManagerAdapter::match_order`.
The random `Uuid::new_v4()` trade id and the `Utc::now()` timestamp are
threaded as parameters (id fixed to 0: no claim mentions it). -/
structure Trade where
  id : Nat
  market_id : String
  buyer_address : String
  seller_address : String
  buyer_order_id : Nat
  seller_order_id : Nat
  price : Nat
  size : Nat
  side : Side
  timestamp : Nat
deriving DecidableEq, Repr

/-- `ExchangeError` from `errors.rs` (payloads of the two infrastructure
variants stand in as their display strings). -/
inductive ExchangeError where
  | TokenNotFound (ticker : String)
  | MarketNotFound (market_id : String)
  | MarketAlreadyExists (market_id : String)
  | InvalidParameter (message : String)
  | InsufficientBalance
  | OrderNotFound
  | UserNotFound (address : String)
  | Database (message : String)
  | ClickHouse (message : String)
deriving DecidableEq, Repr

/-! ### Association-list maps

`DashMap`/`HashMap` with unique keys: `ainsert` replaces an existing
binding, `aerase` removes it, `alookup` finds it.  Erasing removes every
entry with the key so the lemmas need no well-formedness side conditions;
on states built by these operations there is at most one entry per key,
exactly as in the hash maps of the source. -/

/-- Map lookup. -/
def alookup {α β : Type} [DecidableEq α] : List (α × β) → α → Option β
  | [], _ => none
  | (a, b) :: t, k => if a = k then some b else alookup t k

/-- Map erase (removes every binding of the key). -/
def aerase {α β : Type} [DecidableEq α] (k : α) : List (α × β) → List (α × β)
  | [] => []
  | (a, b) :: t => if a = k then aerase k t else (a, b) :: aerase k t

/-- Map insert-or-replace. -/
def ainsert {α β : Type} [DecidableEq α] (k : α) (v : β) (l : List (α × β)) :
    List (α × β) :=
  (k, v) :: aerase k l

/-- The values of a map, in entry order (`HashMap::values`). -/
def avalues {α β : Type} (l : List (α × β)) : List β :=
  l.map Prod.snd

theorem alookup_aerase {α β : Type} [DecidableEq α] (k : α) (l : List (α × β))
    (k' : α) : alookup (aerase k l) k' = if k' = k then none else alookup l k' := by
  induction l with
  | nil => simp [aerase, alookup]
  | cons hd t ih =>
    obtain ⟨a, b⟩ := hd
    by_cases hak : a = k
    · subst hak
      by_cases hk' : k' = a
      · subst hk'
        simpa [aerase, alookup] using ih
      · have h1 : aerase a ((a, b) :: t) = aerase a t := by simp [aerase]
        have hne : a ≠ k' := fun h => hk' h.symm
        have h2 : alookup ((a, b) :: t) k' = alookup t k' := by
          simp [alookup, hne]
        rw [h1, h2, ih]
    · by_cases hak' : a = k'
      · subst hak'
        have hk' : ¬a = k := hak
        simp [aerase, alookup, if_neg hak, if_pos rfl,
          if_neg (fun h : a = k => hak h)]
      · simp only [aerase, if_neg hak, alookup, if_neg hak', ih]

theorem alookup_ainsert {α β : Type} [DecidableEq α] (k : α) (v : β)
    (l : List (α × β)) (k' : α) :
    alookup (ainsert k v l) k' = if k' = k then some v else alookup l k' := by
  by_cases h : k' = k
  · subst h; simp [ainsert, alookup]
  · simp only [ainsert, alookup, if_neg (fun hh : k = k' => h hh.symm), if_neg h,
      alookup_aerase]

theorem alookup_ainsert_self {α β : Type} [DecidableEq α] (k : α) (v : β)
    (l : List (α × β)) : alookup (ainsert k v l) k = some v := by
  simp [alookup_ainsert]

theorem alookup_ainsert_ne {α β : Type} [DecidableEq α] (k : α) (v : β)
    (l : List (α × β)) (k' : α) (h : k' ≠ k) :
    alookup (ainsert k v l) k' = alookup l k' := by
  simp [alookup_ainsert, h]

theorem alookup_aerase_self {α β : Type} [DecidableEq α] (k : α)
    (l : List (α × β)) : alookup (aerase k l) k = none := by
  simp [alookup_aerase]

theorem alookup_aerase_ne {α β : Type} [DecidableEq α] (k : α)
    (l : List (α × β)) (k' : α) (h : k' ≠ k) :
    alookup (aerase k l) k' = alookup l k' := by
  simp [alookup_aerase, h]

/-! ### `price_converter.rs` -/

/-- `PriceConverter { tick_size, lot_size }`. -/
structure PriceConverter where
  tick_size : Nat
  lot_size : Nat
deriving DecidableEq, Repr

/-- `(price / self.tick_size) as u64` — the cast truncates to 64 bits. -/
def price_to_ticks (c : PriceConverter) (price : Nat) : Nat :=
  (price / c.tick_size) % 2 ^ 64

/-- `(ticks as u128) * self.tick_size` — `u128` multiplication. -/
def ticks_to_price (c : PriceConverter) (ticks : Nat) : Nat :=
  ticks * c.tick_size % 2 ^ 128

/-- `(size / self.lot_size) as u64`. -/
def size_to_lots (c : PriceConverter) (size : Nat) : Nat :=
  (size / c.lot_size) % 2 ^ 64

/-- `(lots as u128) * self.lot_size`. -/
def lots_to_size (c : PriceConverter) (lots : Nat) : Nat :=
  lots * c.lot_size % 2 ^ 128

/-! ### `BookManagerAdapter` state -/

/-- `MarketConfig { tick_size, lot_size, converter }` (the converter is a
function of the two sizes). -/
structure MarketConfig where
  tick_size : Nat
  lot_size : Nat
deriving DecidableEq, Repr

/-- The adapter state: `market_configs`, `uuid_to_market`, `order_storage`
(market id → (order id → Order)) and the per-market `orderbook_rs` books,
tracked as the resting order ids (the adapter only ever adds an id with
`add_limit_order` and removes one with `cancel_order`). -/
structure EngineState where
  market_configs : List (String × MarketConfig)
  uuid_to_market : List (Nat × String)
  order_storage : List (String × List (Nat × Order))
  books : List (String × List Nat)
deriving DecidableEq, Repr

/-- The empty adapter (`BookManagerAdapter::new`). -/
def emptyState : EngineState :=
  { market_configs := [], uuid_to_market := [], order_storage := [], books := [] }

/-- `BookManagerAdapter::init_market`: create the book if absent, store the
market config, create the order-storage entry if absent. -/
def init_market (s : EngineState) (market : Market) : EngineState :=
  { s with
    books :=
      if (alookup s.books market.id).isSome then s.books
      else ainsert market.id [] s.books
    market_configs :=
      ainsert market.id ⟨market.tick_size, market.lot_size⟩ s.market_configs
    order_storage :=
      if (alookup s.order_storage market.id).isSome then s.order_storage
      else ainsert market.id [] s.order_storage }

/-- `BookManagerAdapter::add_order`: after `init_market`, return unchanged
when the remaining size is zero, else index the uuid, store the domain
order, and add the id to the `orderbook_rs` book. -/
def add_order (s : EngineState) (market : Market) (order : Order) : EngineState :=
  let s := init_market s market
  let remaining_size := order.size - order.filled_size
  if remaining_size = 0 then s
  else
    let s :=
      { s with
        uuid_to_market := ainsert order.id market.id s.uuid_to_market
        order_storage :=
          ainsert market.id
            (ainsert order.id order ((alookup s.order_storage market.id).getD []))
            s.order_storage }
    match alookup s.books market.id with
    | some ids => { s with books := ainsert market.id (ids ++ [order.id]) s.books }
    | none => s

/-- `BookManagerAdapter::cancel_order`.  Every early `return` keeps the
state unchanged; on success the order leaves the storage, the book and the
uuid index. -/
def cancel_order (s : EngineState) (order_id : Nat) (user_address : String) :
    Except ExchangeError Order × EngineState :=
  match alookup s.uuid_to_market order_id with
  | none => (.error .OrderNotFound, s)
  | some market_id =>
    match alookup s.order_storage market_id with
    | none => (.error .OrderNotFound, s)
    | some market_orders =>
      match alookup market_orders order_id with
      | none => (.error .OrderNotFound, s)
      | some order =>
        if order.user_address ≠ user_address then (.error .OrderNotFound, s)
        else
          (.ok order,
            { s with
              order_storage :=
                ainsert market_id (aerase order_id market_orders) s.order_storage
              books :=
                match alookup s.books market_id with
                | some ids =>
                  ainsert market_id (ids.filter (· ≠ order_id)) s.books
                | none => s.books
              uuid_to_market := aerase order_id s.uuid_to_market })

/-- The fill-application step of `update_order_fill`: bump `filled_size`,
stamp `updated_at`, and set `Filled` exactly when `filled_size >= size`
(no other status is ever assigned). -/
def apply_fill_to_order (order : Order) (fill_size now : Nat) : Order :=
  let o := { order with
    filled_size := order.filled_size + fill_size
    updated_at := now }
  if o.size ≤ o.filled_size then { o with status := .Filled } else o

/-- `BookManagerAdapter::update_order_fill`: locate the order through the
uuid index and the storage; apply the fill; if fully filled remove it from
storage, index and book, else store the updated copy. -/
def update_order_fill (s : EngineState) (order_id fill_size now : Nat) :
    EngineState :=
  match alookup s.uuid_to_market order_id with
  | none => s
  | some market_id =>
    match alookup s.order_storage market_id with
    | none => s
    | some market_orders =>
      match alookup market_orders order_id with
      | none => s
      | some order =>
        let order := apply_fill_to_order order fill_size now
        if order.size ≤ order.filled_size then
          { s with
            order_storage :=
              ainsert market_id (aerase order_id market_orders) s.order_storage
            uuid_to_market := aerase order_id s.uuid_to_market
            books :=
              match alookup s.books market_id with
              | some ids => ainsert market_id (ids.filter (· ≠ order_id)) s.books
              | none => s.books }
        else
          { s with
            order_storage :=
              ainsert market_id (ainsert order_id order market_orders)
                s.order_storage }

/-! ### `BookManagerAdapter::match_order` -/

/-- The price gate of the matching loop (`can_match`). -/
def canMatch (taker maker : Order) : Bool :=
  match taker.side, taker.order_type with
  | .Buy, .Limit => maker.price ≤ taker.price
  | .Buy, .Market => true
  | .Sell, .Limit => taker.price ≤ maker.price
  | .Sell, .Market => true

/-- The sort comparator of `match_order`: price ascending for a Buy taker,
descending for a Sell taker, then `created_at` ascending.  There is no
further tie-break in the source. -/
def makerCmp (taker_side : Side) (a b : Order) : Ordering :=
  match taker_side with
  | .Buy => (compare a.price b.price).then (compare a.created_at b.created_at)
  | .Sell => (compare b.price a.price).then (compare a.created_at b.created_at)

/-- The non-strict relation induced by `makerCmp`; sorting with it as a
stable sort is exactly Rust's stable `sort_by`. -/
def makerLE (taker_side : Side) (a b : Order) : Prop :=
  makerCmp taker_side a b ≠ .gt

instance (taker_side : Side) : DecidableRel (makerLE taker_side) := fun a b =>
  inferInstanceAs (Decidable (makerCmp taker_side a b ≠ .gt))

/-- The candidate list of `match_order`: resting opposite-side orders with
remaining quantity, price-time sorted.  Hash-map value order is the entry
order of the association list. -/
def oppositeOrders (market_orders : List (Nat × Order)) (taker : Order) :
    List Order :=
  let orders := (avalues market_orders).filter fun o =>
    (match taker.side with
      | .Buy => o.side == .Sell
      | .Sell => o.side == .Buy) &&
    decide (o.filled_size < o.size)
  List.insertionSort (makerLE taker.side) orders

/-- The matching loop body of `match_order`: break on zero remaining or a
failed price gate, skip (continue) a same-user maker, otherwise fill
`min(remaining, maker_remaining)` at the maker's price. -/
def matchLoop (taker : Order) : Nat → List Order → List Match
  | _, [] => []
  | remaining_size, maker_order :: rest =>
    if remaining_size = 0 then []
    else if ¬ canMatch taker maker_order then []
    else if maker_order.user_address = taker.user_address then
      matchLoop taker remaining_size rest
    else
      let maker_remaining := maker_order.size - maker_order.filled_size
      let match_size := min remaining_size maker_remaining
      { maker_order := maker_order, price := maker_order.price
        size := match_size } ::
        matchLoop taker (remaining_size - match_size) rest

/-- The `Trade` built (and sent as `TradeExecuted`) for one match. -/
def mkTrade (market : Market) (taker : Order) (now : Nat) (m : Match) : Trade :=
  match taker.side with
  | .Buy =>
    { id := 0, market_id := market.id
      buyer_address := taker.user_address
      seller_address := m.maker_order.user_address
      buyer_order_id := taker.id
      seller_order_id := m.maker_order.id
      price := m.maker_order.price, size := m.size
      side := taker.side, timestamp := now }
  | .Sell =>
    { id := 0, market_id := market.id
      buyer_address := m.maker_order.user_address
      seller_address := taker.user_address
      buyer_order_id := m.maker_order.id
      seller_order_id := taker.id
      price := m.maker_order.price, size := m.size
      side := taker.side, timestamp := now }

/-- `BookManagerAdapter::match_order`: returns the matches, the
`TradeExecuted` trades emitted (one per match, in order), and the state
after the trailing `update_order_fill` loop over the matches. -/
def match_order (s : EngineState) (market : Market) (taker_order : Order)
    (now : Nat) : List Match × List Trade × EngineState :=
  if (alookup s.market_configs market.id).isNone then ([], [], s)
  else
    match alookup s.order_storage market.id with
    | none => ([], [], s)
    | some market_orders =>
      let ms :=
        matchLoop taker_order (taker_order.size - taker_order.filled_size)
          (oppositeOrders market_orders taker_order)
      let trades := ms.map (mkTrade market taker_order now)
      let s := ms.foldl
        (fun st m => update_order_fill st m.maker_order.id m.size now) s
      (ms, trades, s)

/-! ### `BookManagerAdapter::apply_trades` -/

/-- The maker side of a trade as read back in `apply_trades`. -/
def makerOrderId (taker : Order) (t : Trade) : Nat :=
  match taker.side with
  | .Buy => t.seller_order_id
  | .Sell => t.buyer_order_id

/-- The maker-update pass of `apply_trades` (`update_order_fill` once per
trade). -/
def fillMakers (s : EngineState) (taker_order : Order) (trades : List Trade)
    (now : Nat) : EngineState :=
  trades.foldl
    (fun st t => update_order_fill st (makerOrderId taker_order t) t.size now) s

/-- `BookManagerAdapter::apply_trades`: apply each trade to its maker, then
rest the taker's residual iff it is positive and at least `min_size` —
with no check of the taker's order type. -/
def apply_trades (s : EngineState) (taker_order : Order) (trades : List Trade)
    (market : Market) (now : Nat) : EngineState :=
  let s := fillMakers s taker_order trades now
  let total_matched := (trades.map Trade.size).sum
  let remaining_size := taker_order.size - total_matched
  if 0 < remaining_size ∧ market.min_size ≤ remaining_size then
    add_order s market
      { taker_order with
        filled_size := total_matched
        status := if 0 < total_matched then .PartiallyFilled else .Pending }
  else s

/-! ### `BookManagerAdapter::cancel_all_orders` -/

/-- One removal of the inner loop of `cancel_all_orders`
(`market_orders.remove` succeeding ⇒ book cancel + index removal). -/
def cancelOneOrder (mid : String) (acc : List Order × EngineState) (oid : Nat) :
    List Order × EngineState :=
  match alookup acc.2.order_storage mid with
  | none => acc
  | some market_orders =>
    match alookup market_orders oid with
    | none => acc
    | some order =>
      (acc.1 ++ [order],
        { acc.2 with
          order_storage :=
            ainsert mid (aerase oid market_orders) acc.2.order_storage
          books :=
            match alookup acc.2.books mid with
            | some ids => ainsert mid (ids.filter (· ≠ oid)) acc.2.books
            | none => acc.2.books
          uuid_to_market := aerase oid acc.2.uuid_to_market })

/-- The per-market pass of `cancel_all_orders`. -/
def cancelMarketOrders (user_address : String)
    (acc : List Order × EngineState) (mid : String) : List Order × EngineState :=
  match alookup acc.2.order_storage mid with
  | none => acc
  | some market_orders =>
    let user_order_ids :=
      (market_orders.filter fun p => p.2.user_address == user_address).map
        Prod.fst
    user_order_ids.foldl (cancelOneOrder mid) acc

/-- `BookManagerAdapter::cancel_all_orders`: one market when scoped, every
storage key otherwise. -/
def cancel_all_orders (s : EngineState) (user_address : String)
    (market_id : Option String) : List Order × EngineState :=
  let markets_to_check :=
    match market_id with
    | some mid => [mid]
    | none => s.order_storage.map Prod.fst
  markets_to_check.foldl (cancelMarketOrders user_address) ([], s)

/-! ### Derived notions used by the claims -/

/-- The stored order reached through the uuid index, as `cancel_order` and
`get_order` read it. -/
def storedOrder (s : EngineState) (oid : Nat) : Option Order :=
  (alookup s.uuid_to_market oid).bind fun mid =>
    (alookup s.order_storage mid).bind fun market_orders =>
      alookup market_orders oid

/-- The ids resting in a market's `orderbook_rs` book. -/
def bookOrders (s : EngineState) (mid : String) : List Nat :=
  (alookup s.books mid).getD []

/-- Order `x` rests in market `mid`'s domain storage. -/
def restingIn (storage : List (String × List (Nat × Order))) (mid : String)
    (x : Nat) : Prop :=
  ∃ market_orders, alookup storage mid = some market_orders ∧
    (alookup market_orders x).isSome

/-- Invariant O1: the uuid index holds `x ↦ mid` exactly when `x` rests in
market `mid`'s storage. -/
def IndexConsistent (index : List (Nat × String))
    (storage : List (String × List (Nat × Order))) : Prop :=
  ∀ x mid, alookup index x = some mid ↔ restingIn storage mid x

/-- O1 as a state predicate. -/
def StateConsistent (s : EngineState) : Prop :=
  IndexConsistent s.uuid_to_market s.order_storage

/-! ### Concrete fixtures (values from the repository's own tests:
BTC/USDC with tick 1_000_000, lot 10_000, min 10_000) -/

/-- The BTC/USDC market of the adapter tests. -/
def btcMkt : Market :=
  { id := "BTC/USDC", base_ticker := "BTC", quote_ticker := "USDC"
    tick_size := 1000000, lot_size := 10000, min_size := 10000
    maker_fee_bps := 5, taker_fee_bps := 10 }

/-- Order constructor mirroring the tests' `make_order`. -/
def mkOrder (i : Nat) (u : String) (sd : Side) (ty : OrderType)
    (price size : Nat) (created : Nat := 0) : Order :=
  { id := i, user_address := u, market_id := "BTC/USDC", price := price
    size := size, side := sd, order_type := ty, status := .Pending
    filled_size := 0, created_at := created, updated_at := 0 }

/-! ### General lemmas about the operations -/

theorem init_market_uuid_to_market (s : EngineState) (market : Market) :
    (init_market s market).uuid_to_market = s.uuid_to_market := rfl

theorem add_order_components (s : EngineState) (market : Market) (order : Order)
    (h : order.filled_size < order.size) :
    (add_order s market order).uuid_to_market =
        ainsert order.id market.id s.uuid_to_market ∧
    (add_order s market order).order_storage =
      ainsert market.id
        (ainsert order.id order
          ((alookup (init_market s market).order_storage market.id).getD []))
        (init_market s market).order_storage := by
  have hrem : ¬ (order.size - order.filled_size = 0) := by omega
  simp only [add_order, if_neg hrem, init_market_uuid_to_market]
  split <;> exact ⟨rfl, rfl⟩

/-- After `init_market` the storage has an entry for the market. -/
theorem init_market_storage_isSome (s : EngineState) (market : Market) :
    ((alookup (init_market s market).order_storage market.id)).isSome := by
  simp only [init_market]
  rcases h : alookup s.order_storage market.id with _ | mo
  · simp [h, alookup_ainsert_self]
  · simp [h]

/-- An order with remaining quantity added by `add_order` is afterwards the
stored order of its own id. -/
theorem storedOrder_add_order (s : EngineState) (market : Market) (order : Order)
    (h : order.filled_size < order.size) :
    storedOrder (add_order s market order) order.id = some order := by
  obtain ⟨h1, h2⟩ := add_order_components s market order h
  simp [storedOrder, h1, h2, alookup_ainsert_self]

/-- `apply_trades` with no trades and a residual at least `min_size` rests
the taker (with `Pending` status) — with no check of the order's type,
price quantum or size quantum. -/
theorem apply_trades_noTrades_rests (s : EngineState) (taker : Order)
    (market : Market) (now : Nat) (hpos : 0 < taker.size)
    (hmin : market.min_size ≤ taker.size) :
    storedOrder (apply_trades s taker [] market now) taker.id =
      some { taker with filled_size := 0, status := .Pending } := by
  have hcond : 0 < taker.size - (([] : List Trade).map Trade.size).sum ∧
      market.min_size ≤ taker.size - (([] : List Trade).map Trade.size).sum := by
    simpa using ⟨hpos, hmin⟩
  simp only [apply_trades, fillMakers, List.foldl_nil, if_pos hcond]
  have : (([] : List Trade).map Trade.size).sum = 0 := rfl
  rw [this]
  exact storedOrder_add_order s market _ (by simpa using hpos)

/-! ## C10 — tick/lot conversions

The claim says the round-trips are exact for every quantum-aligned input.
The `as u64` casts in `price_to_ticks`/`size_to_lots` truncate, so the
round-trip fails as soon as `p / tick_size` (resp. `s / lot_size`) reaches
`2 ^ 64`; within the `u64` range it is exact. -/

/-- C10 counterexample: with the positive quanta `tick_size = lot_size = 1`,
the `u128` price `2 ^ 64` (a multiple of the tick) does not survive the
round-trip: `price_to_ticks` truncates it to `0`. -/
theorem C10_cex :
    (0 < (1 : Nat) ∧ 2 ^ 64 % (1 : Nat) = 0 ∧ (2 : Nat) ^ 64 < 2 ^ 128) ∧
    ticks_to_price ⟨1, 1⟩ (price_to_ticks ⟨1, 1⟩ (2 ^ 64)) = 0 ∧
    ticks_to_price ⟨1, 1⟩ (price_to_ticks ⟨1, 1⟩ (2 ^ 64)) ≠ 2 ^ 64 ∧
    lots_to_size ⟨1, 1⟩ (size_to_lots ⟨1, 1⟩ (2 ^ 64)) ≠ 2 ^ 64 := by
  refine ⟨⟨by norm_num, by norm_num, by norm_num⟩, ?_, ?_, ?_⟩ <;>
    simp [ticks_to_price, price_to_ticks, lots_to_size, size_to_lots,
      Nat.mod_self]

/-- C10 (amended): for positive `tick_size`/`lot_size`, the conversions are
exact lossless round-trips on every quantum-aligned `u128` input whose
scaled value fits in `u64` (`p / tick_size < 2 ^ 64`,
`s / lot_size < 2 ^ 64`); the `as u64` cast truncates beyond that. -/
theorem C10_roundtrip (c : PriceConverter) (p sz : Nat)
    (hdivp : c.tick_size ∣ p) (hdivs : c.lot_size ∣ sz)
    (hp128 : p < 2 ^ 128) (hs128 : sz < 2 ^ 128)
    (hpfit : p / c.tick_size < 2 ^ 64) (hsfit : sz / c.lot_size < 2 ^ 64) :
    ticks_to_price c (price_to_ticks c p) = p ∧
    lots_to_size c (size_to_lots c sz) = sz := by
  constructor
  · rw [price_to_ticks, ticks_to_price, Nat.mod_eq_of_lt hpfit,
      Nat.div_mul_cancel hdivp, Nat.mod_eq_of_lt hp128]
  · rw [size_to_lots, lots_to_size, Nat.mod_eq_of_lt hsfit,
      Nat.div_mul_cancel hdivs, Nat.mod_eq_of_lt hs128]

/-- C10 witness: the round-trip theorem applied to the BTC/USDC quanta and
the test values `$500` / `1 BTC`. -/
theorem C10_roundtrip_witness :
    ticks_to_price ⟨1000000, 10000⟩
        (price_to_ticks ⟨1000000, 10000⟩ 50000000000) = 50000000000 ∧
    lots_to_size ⟨1000000, 10000⟩
        (size_to_lots ⟨1000000, 10000⟩ 100000000) = 100000000 :=
  C10_roundtrip ⟨1000000, 10000⟩ 50000000000 100000000
    ⟨50000, by norm_num⟩ ⟨10000, by norm_num⟩ (by norm_num) (by norm_num)
    (by norm_num) (by norm_num)

/-! ## C9 — quantum / min-size validation

`ExchangeError` (errors.rs) has no `InvalidQuantum` or `BelowMinSize`
variant, and no code in the adapter path validates tick/lot divisibility
or `min_size` before matching: the placement path accepts and rests
unvalidated orders. -/

/-- A placement violating both quanta: price 3 (tick 1_000_000 does not
divide it), size 15_000 (not a lot multiple, but ≥ min_size). -/
def quantumViolatingOrder : Order := mkOrder 41 "alice" .Buy .Limit 3 15000

/-- C9 counterexample: the quantum-violating order is not rejected — after
the placement path (`apply_trades` with no fills) it is resting in the
book, so the book changed and no `InvalidQuantum`/`BelowMinSize` error
occurred. -/
theorem C9_cex :
    ¬ (btcMkt.tick_size ∣ quantumViolatingOrder.price) ∧
    ¬ (btcMkt.lot_size ∣ quantumViolatingOrder.size) ∧
    btcMkt.min_size ≤ quantumViolatingOrder.size ∧
    storedOrder (apply_trades emptyState quantumViolatingOrder [] btcMkt 0)
        quantumViolatingOrder.id =
      some { quantumViolatingOrder with filled_size := 0, status := .Pending } ∧
    apply_trades emptyState quantumViolatingOrder [] btcMkt 0 ≠ emptyState := by
  refine ⟨by decide, by decide, by decide, ?_, by decide⟩
  exact apply_trades_noTrades_rests _ _ _ _ (by decide) (by decide)

/-- C9 (amended): the core cannot reject a placement with
`InvalidQuantum` or `BelowMinSize` — every `ExchangeError` is one of the
nine variants of `errors.rs` — and the adapter placement path accepts an
order regardless of tick/lot divisibility: any taker with
`min_size ≤ size` and no fills is rested unvalidated. -/
theorem C9_no_quantum_validation :
    (∀ e : ExchangeError,
      (∃ t, e = .TokenNotFound t) ∨ (∃ m, e = .MarketNotFound m) ∨
      (∃ m, e = .MarketAlreadyExists m) ∨ (∃ m, e = .InvalidParameter m) ∨
      e = .InsufficientBalance ∨ e = .OrderNotFound ∨
      (∃ a, e = .UserNotFound a) ∨ (∃ m, e = .Database m) ∨
      (∃ m, e = .ClickHouse m)) ∧
    (∀ (s : EngineState) (market : Market) (order : Order) (now : Nat),
      ¬ (market.tick_size ∣ order.price) →
      0 < order.size → market.min_size ≤ order.size →
      storedOrder (apply_trades s order [] market now) order.id =
        some { order with filled_size := 0, status := .Pending }) := by
  constructor
  · intro e
    cases e with
    | TokenNotFound t => exact Or.inl ⟨t, rfl⟩
    | MarketNotFound m => exact Or.inr (Or.inl ⟨m, rfl⟩)
    | MarketAlreadyExists m => exact Or.inr (Or.inr (Or.inl ⟨m, rfl⟩))
    | InvalidParameter m =>
      exact Or.inr (Or.inr (Or.inr (Or.inl ⟨m, rfl⟩)))
    | InsufficientBalance =>
      exact Or.inr (Or.inr (Or.inr (Or.inr (Or.inl rfl))))
    | OrderNotFound =>
      exact Or.inr (Or.inr (Or.inr (Or.inr (Or.inr (Or.inl rfl)))))
    | UserNotFound a =>
      exact Or.inr (Or.inr (Or.inr (Or.inr (Or.inr (Or.inr (Or.inl ⟨a, rfl⟩))))))
    | Database m =>
      exact Or.inr (Or.inr (Or.inr (Or.inr (Or.inr (Or.inr (Or.inr
        (Or.inl ⟨m, rfl⟩)))))))
    | ClickHouse m =>
      exact Or.inr (Or.inr (Or.inr (Or.inr (Or.inr (Or.inr (Or.inr
        (Or.inr ⟨m, rfl⟩)))))))
  · intro s market order now _ hpos hmin
    exact apply_trades_noTrades_rests s order market now hpos hmin

/-- C9 witness: the amended theorem applied to the concrete
quantum-violating order on the empty adapter. -/
theorem C9_no_quantum_validation_witness :
    storedOrder (apply_trades emptyState quantumViolatingOrder [] btcMkt 0)
        quantumViolatingOrder.id =
      some { quantumViolatingOrder with filled_size := 0, status := .Pending } :=
  C9_no_quantum_validation.2 emptyState btcMkt quantumViolatingOrder 0
    (by decide) (by decide) (by decide)

/-! ## C1 — market-order residual

`apply_trades` rests the taker's residual whenever
`remaining > 0 ∧ remaining ≥ min_size` with **no** check of
`taker.order_type`: a market order's residual IS re-added to the book, and
no code marks the taker `Filled`/`Cancelled`. -/

/-- A market buy taker of size 20_000 (price field 0, as the repository's
tests construct market orders). -/
def c1Taker : Order := mkOrder 5 "taker" .Buy .Market 0 20000

/-- The single trade that partially filled the market taker (size 5_000
against maker order 77). -/
def c1Trade : Trade :=
  { id := 0, market_id := "BTC/USDC", buyer_address := "taker"
    seller_address := "maker", buyer_order_id := 5, seller_order_id := 77
    price := 50000000000, size := 5000, side := .Buy, timestamp := 0 }

/-- The order `apply_trades` rests for the partially matched market taker. -/
def c1Rested : Order :=
  { c1Taker with filled_size := 5000, status := .PartiallyFilled }

/-- C1 (code bug): a market taker matched for 5_000 of 20_000 (residual
15_000 ≥ min_size 10_000) is re-added to the book by `apply_trades`, as a
resting order of status `PartiallyFilled` at its price field — the
residual is rested, not discarded, and the taker is not marked
`Filled` or `Cancelled`. -/
theorem C1_market_residual_rested :
    c1Taker.order_type = .Market ∧
    (([c1Trade].map Trade.size).sum < c1Taker.size) ∧
    storedOrder (apply_trades emptyState c1Taker [c1Trade] btcMkt 0)
        c1Taker.id = some c1Rested ∧
    c1Rested.status ≠ .Filled ∧ c1Rested.status ≠ .Cancelled := by
  refine ⟨rfl, by decide, ?_, by decide, by decide⟩
  decide

/-! ## Behaviour of `update_order_fill` (C6 / C7 / C8 support) -/

theorem apply_fill_size (o : Order) (f n : Nat) :
    (apply_fill_to_order o f n).size = o.size := by
  cases o
  simp only [apply_fill_to_order]
  split <;> rfl

theorem apply_fill_filled (o : Order) (f n : Nat) :
    (apply_fill_to_order o f n).filled_size = o.filled_size + f := by
  cases o
  simp only [apply_fill_to_order]
  split <;> rfl

theorem apply_fill_of_lt (o : Order) (f n : Nat)
    (h : o.filled_size + f < o.size) :
    apply_fill_to_order o f n =
      { o with filled_size := o.filled_size + f, updated_at := n } := by
  obtain ⟨i, u, m, p, sz, sd, ty, st, fs, ca, ua⟩ := o
  simp only [apply_fill_to_order]
  rw [if_neg]
  simp only [] at h ⊢
  simpa using by omega

theorem apply_fill_status_of_ge (o : Order) (f n : Nat)
    (h : o.size ≤ o.filled_size + f) :
    (apply_fill_to_order o f n).status = .Filled := by
  obtain ⟨i, u, m, p, sz, sd, ty, st, fs, ca, ua⟩ := o
  simp only [apply_fill_to_order]
  rw [if_pos]
  simpa using h

/-- Equation: `update_order_fill` with an unindexed id is the identity. -/
theorem update_order_fill_eq_noIdx (s : EngineState) (oid fill now : Nat)
    (hidx : alookup s.uuid_to_market oid = none) :
    update_order_fill s oid fill now = s := by
  unfold update_order_fill
  rw [hidx]

/-- Equation: `update_order_fill` with a dangling market is the identity. -/
theorem update_order_fill_eq_noMarket (s : EngineState) (oid fill now : Nat)
    (mid : String) (hidx : alookup s.uuid_to_market oid = some mid)
    (hst : alookup s.order_storage mid = none) :
    update_order_fill s oid fill now = s := by
  unfold update_order_fill
  split <;> simp_all

/-- Equation: `update_order_fill` with an unstored id is the identity. -/
theorem update_order_fill_eq_noOrder (s : EngineState) (oid fill now : Nat)
    (mid : String) (mo : List (Nat × Order))
    (hidx : alookup s.uuid_to_market oid = some mid)
    (hst : alookup s.order_storage mid = some mo)
    (ho : alookup mo oid = none) :
    update_order_fill s oid fill now = s := by
  unfold update_order_fill
  split <;> simp_all

/-- Equation: `update_order_fill` on a stored order. -/
theorem update_order_fill_eq_found (s : EngineState) (oid fill now : Nat)
    (mid : String) (mo : List (Nat × Order)) (o : Order)
    (hidx : alookup s.uuid_to_market oid = some mid)
    (hst : alookup s.order_storage mid = some mo)
    (ho : alookup mo oid = some o) :
    update_order_fill s oid fill now =
      if (apply_fill_to_order o fill now).size ≤
          (apply_fill_to_order o fill now).filled_size then
        { s with
          order_storage := ainsert mid (aerase oid mo) s.order_storage
          uuid_to_market := aerase oid s.uuid_to_market
          books :=
            match alookup s.books mid with
            | some ids => ainsert mid (ids.filter (· ≠ oid)) s.books
            | none => s.books }
      else
        { s with
          order_storage :=
            ainsert mid (ainsert oid (apply_fill_to_order o fill now) mo)
              s.order_storage } := by
  unfold update_order_fill
  split <;> simp_all

/-- `update_order_fill` never inserts an id into the uuid index. -/
theorem update_order_fill_index_none (s : EngineState) (oid fill now x : Nat)
    (h : alookup s.uuid_to_market x = none) :
    alookup (update_order_fill s oid fill now).uuid_to_market x = none := by
  rcases h1 : alookup s.uuid_to_market oid with _ | mid
  · rw [update_order_fill_eq_noIdx s oid fill now h1]; exact h
  · rcases h2 : alookup s.order_storage mid with _ | mo
    · rw [update_order_fill_eq_noMarket s oid fill now mid h1 h2]; exact h
    · rcases h3 : alookup mo oid with _ | o
      · rw [update_order_fill_eq_noOrder s oid fill now mid mo h1 h2 h3]
        exact h
      · rw [update_order_fill_eq_found s oid fill now mid mo o h1 h2 h3]
        by_cases hf : (apply_fill_to_order o fill now).size ≤
            (apply_fill_to_order o fill now).filled_size
        · rw [if_pos hf]
          by_cases hx : x = oid
          · subst hx; simp [alookup_aerase]
          · simpa [alookup_aerase_ne _ _ _ hx] using h
        · rw [if_neg hf]
          exact h

/-- The maker-update pass never inserts an id into the uuid index. -/
theorem fillMakers_index_none (taker : Order) (trades : List Trade)
    (now x : Nat) :
    ∀ s : EngineState, alookup s.uuid_to_market x = none →
      alookup (fillMakers s taker trades now).uuid_to_market x = none := by
  induction trades with
  | nil => intro s h; exact h
  | cons t ts ih =>
    intro s h
    exact ih _ (update_order_fill_index_none _ _ _ _ _ h)

/-! ## C6 — limit-taker residual handling in `apply_trades`

The `residual ≥ min_size ⇒ rest` half of the claim holds.  The claimed
`PartiallyFilled`/`Cancelled` marking in the discard case does not exist:
when the residual is below `min_size` (or zero), `apply_trades` performs
only the maker updates and never touches the taker's status. -/

/-- A limit sell taker of size 5_000 (below the 10_000 `min_size`). -/
def c6Taker : Order := mkOrder 6 "bob" .Sell .Limit 50000000000 5000

/-- C6 counterexample: a limit taker with zero fills and
`0 < residual < min_size` is discarded, but nothing is marked `Cancelled`:
`apply_trades` returns the state completely unchanged (the taker, whose
status field is still `Pending`, is recorded nowhere). -/
theorem C6_cex :
    c6Taker.order_type = .Limit ∧ 0 < c6Taker.size ∧
    c6Taker.size < btcMkt.min_size ∧
    apply_trades emptyState c6Taker [] btcMkt 0 = emptyState ∧
    c6Taker.status = .Pending := by
  refine ⟨rfl, by decide, by decide, by decide, rfl⟩

/-- C6 (amended): for a limit taker with residual
`size − matched ≥ min_size (> 0)`, `apply_trades` rests the residual order
with `filled_size = matched` and status `PartiallyFilled` when
`matched > 0` else `Pending`; when the residual is zero or below
`min_size`, only the maker updates happen — the taker is not rested (its
id stays out of the uuid index) and no `Cancelled`/`PartiallyFilled`
marking of the taker occurs anywhere. -/
theorem C6_limit_residual (s : EngineState) (taker : Order)
    (trades : List Trade) (market : Market) (now : Nat)
    (hty : taker.order_type = .Limit) :
    (0 < taker.size - (trades.map Trade.size).sum →
      market.min_size ≤ taker.size - (trades.map Trade.size).sum →
      storedOrder (apply_trades s taker trades market now) taker.id =
        some { taker with
          filled_size := (trades.map Trade.size).sum
          status := if 0 < (trades.map Trade.size).sum then
            OrderStatus.PartiallyFilled else .Pending }) ∧
    (taker.size - (trades.map Trade.size).sum = 0 ∨
        taker.size - (trades.map Trade.size).sum < market.min_size →
      apply_trades s taker trades market now = fillMakers s taker trades now ∧
      (alookup s.uuid_to_market taker.id = none →
        alookup (apply_trades s taker trades market now).uuid_to_market
          taker.id = none)) := by
  constructor
  · intro hpos hmin
    simp only [apply_trades, if_pos (And.intro hpos hmin)]
    exact storedOrder_add_order _ market _ (by simp; omega)
  · intro hdisc
    have hcond : ¬ (0 < taker.size - (trades.map Trade.size).sum ∧
        market.min_size ≤ taker.size - (trades.map Trade.size).sum) := by
      rcases hdisc with h | h <;> omega
    constructor
    · simp only [apply_trades, if_neg hcond]
    · intro hfresh
      simp only [apply_trades, if_neg hcond]
      exact fillMakers_index_none taker trades now taker.id s hfresh

/-- A limit buy taker of size 20_000 for the C6 witness. -/
def c6WitTaker : Order := mkOrder 61 "carol" .Buy .Limit 50000000000 20000

/-- The trade that matched 15_000 of the C6 witness taker. -/
def c6WitTrade : Trade :=
  { id := 0, market_id := "BTC/USDC", buyer_address := "carol"
    seller_address := "dave", buyer_order_id := 61, seller_order_id := 988
    price := 50000000000, size := 15000, side := .Buy, timestamp := 0 }

/-- C6 witness: the amended theorem instantiated on a concrete partial
fill.  A limit buy of 20_000 matched for 15_000 has residual
5_000 < min_size 10_000: only the maker update happens and the taker is
not rested. -/
theorem C6_limit_residual_witness :
    apply_trades emptyState c6WitTaker [c6WitTrade] btcMkt 0 =
      fillMakers emptyState c6WitTaker [c6WitTrade] 0 ∧
    (alookup emptyState.uuid_to_market c6WitTaker.id = none →
      alookup (apply_trades emptyState c6WitTaker [c6WitTrade] btcMkt
          0).uuid_to_market c6WitTaker.id = none) := by
  have h := (C6_limit_residual emptyState c6WitTaker [c6WitTrade] btcMkt 0
    rfl).2 (by decide)
  exact ⟨h.1, fun _ => h.2 (by decide)⟩

/-! ## C7 — fill application and order status

`update_order_fill` (both adapters) bumps `filled_size` and assigns
`Filled` exactly when `filled_size ≥ size`, removing the order; it never
assigns `PartiallyFilled`: a partially filled resting maker keeps its
previous status (`Pending`). -/

/-- A resting sell maker of size 20_000. -/
def c7Maker : Order := mkOrder 7 "alice" .Sell .Limit 50000000000 20000

/-- The book containing only `c7Maker`. -/
def c7State : EngineState := add_order emptyState btcMkt c7Maker

/-- The stored order after the partial fill of 5_000 at time 9. -/
def c7After : Order := { c7Maker with filled_size := 5000, updated_at := 9 }

/-- C7 counterexample: a fill of 5_000 against the resting 20_000 maker
leaves `0 < filled_size < size`, yet the maker's stored status is still
`Pending`, not `PartiallyFilled`. -/
theorem C7_cex :
    0 < c7After.filled_size ∧ c7After.filled_size < c7After.size ∧
    storedOrder (update_order_fill c7State 7 5000 9) 7 = some c7After ∧
    c7After.status = .Pending ∧
    c7After.status ≠ .PartiallyFilled := by
  refine ⟨by decide, by decide, by decide, rfl, by decide⟩

/-- C7 (amended): for a stored order `o`, a fill leaving
`filled_size + fill < size` keeps the order resting with `filled_size`
increased and the status unchanged (never set to `PartiallyFilled`); a
fill reaching `size` marks the order `Filled` and removes it from the
storage, the uuid index and the book; the assigned status is `Filled` iff
the fill reaches `size` (or the order was already `Filled`). -/
theorem C7_fill_semantics (s : EngineState) (oid fill now : Nat)
    (mid : String) (mo : List (Nat × Order)) (o : Order)
    (hidx : alookup s.uuid_to_market oid = some mid)
    (hst : alookup s.order_storage mid = some mo)
    (ho : alookup mo oid = some o) :
    (o.filled_size + fill < o.size →
      storedOrder (update_order_fill s oid fill now) oid =
        some { o with filled_size := o.filled_size + fill
                      updated_at := now } ∧
      (update_order_fill s oid fill now).uuid_to_market = s.uuid_to_market) ∧
    (o.size ≤ o.filled_size + fill →
      (apply_fill_to_order o fill now).status = .Filled ∧
      storedOrder (update_order_fill s oid fill now) oid = none ∧
      alookup (update_order_fill s oid fill now).uuid_to_market oid = none ∧
      oid ∉ bookOrders (update_order_fill s oid fill now) mid) ∧
    ((apply_fill_to_order o fill now).status = .Filled ↔
      o.size ≤ o.filled_size + fill ∨ o.status = .Filled) := by
  have heq := update_order_fill_eq_found s oid fill now mid mo o hidx hst ho
  refine ⟨?_, ?_, ?_⟩
  · intro hlt
    have hnotfull : ¬ ((apply_fill_to_order o fill now).size ≤
        (apply_fill_to_order o fill now).filled_size) := by
      rw [apply_fill_size, apply_fill_filled]; omega
    rw [heq, if_neg hnotfull]
    constructor
    · simp [storedOrder, hidx, alookup_ainsert_self,
        apply_fill_of_lt o fill now hlt]
    · rfl
  · intro hge
    have hfull : (apply_fill_to_order o fill now).size ≤
        (apply_fill_to_order o fill now).filled_size := by
      rw [apply_fill_size, apply_fill_filled]; omega
    rw [heq, if_pos hfull]
    refine ⟨apply_fill_status_of_ge o fill now hge, ?_, ?_, ?_⟩
    · simp [storedOrder, alookup_aerase_self]
    · simp [alookup_aerase_self]
    · rcases hb : alookup s.books mid with _ | ids
      · simp [bookOrders, hb]
      · simp [bookOrders, hb, alookup_ainsert_self, List.mem_filter]
  · by_cases hge : o.size ≤ o.filled_size + fill
    · simp [apply_fill_status_of_ge o fill now hge, hge]
    · have hlt : o.filled_size + fill < o.size := by omega
      rw [apply_fill_of_lt o fill now hlt]
      show o.status = OrderStatus.Filled ↔ _
      simp [hge]

/-- C7 witness: the amended theorem applied to the concrete 5_000 fill of
the resting 20_000 maker. -/
theorem C7_fill_semantics_witness :
    storedOrder (update_order_fill c7State 7 5000 9) 7 = some c7After ∧
    (update_order_fill c7State 7 5000 9).uuid_to_market =
      c7State.uuid_to_market :=
  (C7_fill_semantics c7State 7 5000 9 "BTC/USDC" [(7, c7Maker)] c7Maker
    (by decide) (by decide) (by decide)).1 (by decide)

/-! ## Structure of `match_order` results (C2 / C3 / C4 support) -/

/-- Every match produced by the matching loop carries its maker's price. -/
theorem matchLoop_price_eq_maker (taker : Order) :
    ∀ (remaining : Nat) (L : List Order) (m : Match),
      m ∈ matchLoop taker remaining L → m.price = m.maker_order.price := by
  intro remaining L
  induction L generalizing remaining with
  | nil => intro m hm; simp [matchLoop] at hm
  | cons maker rest ih =>
    intro m hm
    simp only [matchLoop] at hm
    split_ifs at hm
    all_goals
      first
      | exact absurd hm (List.not_mem_nil m)
      | exact ih _ m hm
      | (rcases List.mem_cons.mp hm with rfl | hm' <;>
          first
          | rfl
          | exact ih _ m hm')

/-- Every match produced by the matching loop belongs to another user than
the taker (the self-trade `continue`). -/
theorem matchLoop_no_self (taker : Order) :
    ∀ (remaining : Nat) (L : List Order) (m : Match),
      m ∈ matchLoop taker remaining L →
      m.maker_order.user_address ≠ taker.user_address := by
  intro remaining L
  induction L generalizing remaining with
  | nil => intro m hm; simp [matchLoop] at hm
  | cons maker rest ih =>
    intro m hm
    simp only [matchLoop] at hm
    split_ifs at hm with h0 h1 h2
    all_goals
      first
      | exact absurd hm (List.not_mem_nil m)
      | exact ih _ m hm
      | (rcases List.mem_cons.mp hm with rfl | hm' <;>
          first
          | exact h2
          | exact ih _ m hm')

/-- A same-user maker is skipped without stopping the loop. -/
theorem matchLoop_skips_self (taker maker : Order) (remaining : Nat)
    (rest : List Order) (h0 : remaining ≠ 0) (hc : canMatch taker maker = true)
    (ha : maker.user_address = taker.user_address) :
    matchLoop taker remaining (maker :: rest) =
      matchLoop taker remaining rest := by
  simp only [matchLoop, if_neg h0, hc, ha]
  simp

/-- The matches of `match_order` are empty or a `matchLoop` run over the
sorted opposite side. -/
theorem match_order_matches (s : EngineState) (market : Market)
    (taker : Order) (now : Nat) :
    (match_order s market taker now).1 = [] ∨
    ∃ mo, alookup s.order_storage market.id = some mo ∧
      (match_order s market taker now).1 =
        matchLoop taker (taker.size - taker.filled_size)
          (oppositeOrders mo taker) := by
  unfold match_order
  split
  · left; rfl
  · split
    · left; rfl
    · next mo hmo => right; exact ⟨mo, hmo, rfl⟩

/-- The trades emitted by `match_order` are exactly one `mkTrade` per
match, in order. -/
theorem match_order_trades (s : EngineState) (market : Market)
    (taker : Order) (now : Nat) :
    (match_order s market taker now).2.1 =
      (match_order s market taker now).1.map (mkTrade market taker now) := by
  unfold match_order
  split
  · rfl
  · split
    · rfl
    · rfl

/-- The state returned by `match_order` is the input state updated by
`update_order_fill` once per match. -/
theorem match_order_state (s : EngineState) (market : Market)
    (taker : Order) (now : Nat) :
    (match_order s market taker now).2.2 =
      (match_order s market taker now).1.foldl
        (fun st m => update_order_fill st m.maker_order.id m.size now) s := by
  unfold match_order
  split
  · rfl
  · split
    · rfl
    · rfl

/-- The buyer/seller addresses of an emitted trade are the taker's and the
maker's (orientation by taker side). -/
theorem mkTrade_addresses (market : Market) (taker : Order) (now : Nat)
    (m : Match) :
    ((mkTrade market taker now m).buyer_address = taker.user_address ∧
      (mkTrade market taker now m).seller_address =
        m.maker_order.user_address) ∨
    ((mkTrade market taker now m).buyer_address =
        m.maker_order.user_address ∧
      (mkTrade market taker now m).seller_address = taker.user_address) := by
  rcases hts : taker.side with _ | _ <;> simp [mkTrade, hts]

/-! ## C2 — maker-price rule -/

/-- C2: every match produced by `match_order` prices at the matched
maker's resting price, and every `TradeExecuted` trade emitted during the
call is the trade of one of those matches, carrying the same maker price
(`trade.price = maker.price`). -/
theorem C2_maker_price (s : EngineState) (market : Market) (taker : Order)
    (now : Nat) :
    (∀ m ∈ (match_order s market taker now).1,
      m.price = m.maker_order.price) ∧
    ((match_order s market taker now).2.1 =
      (match_order s market taker now).1.map (mkTrade market taker now)) ∧
    (∀ m : Match, (mkTrade market taker now m).price = m.maker_order.price) := by
  refine ⟨?_, match_order_trades s market taker now, ?_⟩
  · intro m hm
    rcases match_order_matches s market taker now with h | ⟨mo, _, h⟩
    · rw [h] at hm; simp at hm
    · rw [h] at hm
      exact matchLoop_price_eq_maker taker _ _ m hm
  · intro m
    cases hts : taker.side <;> simp [mkTrade, hts]

/-- The resting maker for the C2 witness (the adapter test scenario:
sell 1 BTC at `$500.00`). -/
def w2Maker : Order := mkOrder 1 "alice" .Sell .Limit 50000000000 100000000

/-- Book containing only `w2Maker`. -/
def w2State : EngineState := add_order emptyState btcMkt w2Maker

/-- The taker for the C2 witness (buy 0.5 BTC at the same price). -/
def w2Taker : Order := mkOrder 2 "bob" .Buy .Limit 50000000000 50000000

/-- The single match `match_order` produces for the C2 witness. -/
def w2Match : Match :=
  { maker_order := w2Maker, price := 50000000000, size := 50000000 }

/-- C2 witness: the maker-price theorem applied to the concrete match of
the one-maker book. -/
theorem C2_maker_price_witness : w2Match.price = w2Match.maker_order.price :=
  (C2_maker_price w2State btcMkt w2Taker 7).1 w2Match (by decide)

/-! ## C4 — self-trade prevention -/

/-- C4: a resting maker owned by the taker's user is never matched
(`maker.user_address ≠ taker.user_address` for every match), every
emitted trade has distinct buyer and seller addresses, and a same-user
maker is skipped without stopping the traversal (the loop continues on
the remaining candidates unchanged). -/
theorem C4_self_trade (s : EngineState) (market : Market) (taker : Order)
    (now : Nat) :
    (∀ m ∈ (match_order s market taker now).1,
      m.maker_order.user_address ≠ taker.user_address) ∧
    (∀ t ∈ (match_order s market taker now).2.1,
      t.buyer_address ≠ t.seller_address) ∧
    (∀ (remaining : Nat) (maker : Order) (rest : List Order),
      remaining ≠ 0 → canMatch taker maker = true →
      maker.user_address = taker.user_address →
      matchLoop taker remaining (maker :: rest) =
        matchLoop taker remaining rest) := by
  have hmatches : ∀ m ∈ (match_order s market taker now).1,
      m.maker_order.user_address ≠ taker.user_address := by
    intro m hm
    rcases match_order_matches s market taker now with h | ⟨mo, _, h⟩
    · rw [h] at hm; simp at hm
    · rw [h] at hm
      exact matchLoop_no_self taker _ _ m hm
  refine ⟨hmatches, ?_, fun remaining maker rest h0 hc ha =>
    matchLoop_skips_self taker maker remaining rest h0 hc ha⟩
  intro t ht
  rw [match_order_trades s market taker now] at ht
  rcases List.mem_map.mp ht with ⟨m, hm, rfl⟩
  have hne := hmatches m hm
  rcases mkTrade_addresses market taker now m with ⟨hb, hs⟩ | ⟨hb, hs⟩ <;>
    rw [hb, hs]
  · intro hcontra; exact hne hcontra.symm
  · intro hcontra; exact hne hcontra

/-- A maker resting at a better price but owned by the taker's own user. -/
def w4SelfMaker : Order := mkOrder 11 "ted" .Sell .Limit 49000000000 100000000 0

/-- A worse-priced maker owned by another user. -/
def w4OtherMaker : Order :=
  mkOrder 12 "oly" .Sell .Limit 50000000000 100000000 1

/-- Book with the self maker ahead of the other-user maker. -/
def w4State : EngineState :=
  add_order (add_order emptyState btcMkt w4SelfMaker) btcMkt w4OtherMaker

/-- The taker of the C4 witness, same user as `w4SelfMaker`. -/
def w4Taker : Order := mkOrder 13 "ted" .Buy .Limit 50000000000 50000000

/-- The match `match_order` produces for the C4 witness: the other user's
maker, although the self maker had price priority. -/
def w4Match : Match :=
  { maker_order := w4OtherMaker, price := 50000000000, size := 50000000 }

/-- C4 witness: the self-trade theorem applied to the concrete crossed
book — the produced match is against the other user, and the loop on the
concrete candidate list steps over the self maker. -/
theorem C4_self_trade_witness :
    w4Match.maker_order.user_address ≠ w4Taker.user_address ∧
    matchLoop w4Taker 50000000 [w4SelfMaker, w4OtherMaker] =
      matchLoop w4Taker 50000000 [w4OtherMaker] :=
  ⟨(C4_self_trade w4State btcMkt w4Taker 0).1 w4Match (by decide),
    (C4_self_trade w4State btcMkt w4Taker 0).2.2 50000000 w4SelfMaker
      [w4OtherMaker] (by decide) (by decide) rfl⟩

/-! ## C3 — price-time priority

The sort comparator is price (best first) then `created_at`; fills follow
that order.  The claimed order-id tie-break does not exist: when two
`created_at` values collide the comparator returns `Ordering.eq` and the
stable sort keeps the (arbitrary) hash-map iteration order. -/

/-- The claim-level priority relation: better price first, then earlier
`created_at` within a price level. -/
def priceTimeLE : Side → Order → Order → Prop
  | .Buy, a, b =>
    a.price < b.price ∨ (a.price = b.price ∧ a.created_at ≤ b.created_at)
  | .Sell, a, b =>
    b.price < a.price ∨ (a.price = b.price ∧ a.created_at ≤ b.created_at)

theorem ordering_then_eq_gt (o₁ o₂ : Ordering) :
    o₁.then o₂ = .gt ↔ o₁ = .gt ∨ (o₁ = .eq ∧ o₂ = .gt) := by
  cases o₁ <;> simp [Ordering.then]

theorem makerLE_iff (side : Side) (a b : Order) :
    makerLE side a b ↔ priceTimeLE side a b := by
  cases side <;>
    simp only [makerLE, makerCmp, ne_eq, ordering_then_eq_gt,
      Nat.compare_eq_gt, Nat.compare_eq_eq, priceTimeLE] <;>
    omega

theorem makerLE_total (side : Side) (a b : Order) :
    makerLE side a b ∨ makerLE side b a := by
  rw [makerLE_iff, makerLE_iff]
  cases side <;> simp only [priceTimeLE] <;> omega

theorem makerLE_trans (side : Side) (a b c : Order)
    (hab : makerLE side a b) (hbc : makerLE side b c) : makerLE side a c := by
  rw [makerLE_iff] at hab hbc ⊢
  cases side <;> simp only [priceTimeLE] at hab hbc ⊢ <;> omega

/-- The makers of the produced matches are a sublist of the candidate
list (the loop only skips or stops). -/
theorem matchLoop_makers_sublist (taker : Order) :
    ∀ (remaining : Nat) (L : List Order),
      ((matchLoop taker remaining L).map Match.maker_order).Sublist L := by
  intro remaining L
  induction L generalizing remaining with
  | nil => simp [matchLoop]
  | cons maker rest ih =>
    simp only [matchLoop]
    split_ifs
    all_goals
      first
      | exact List.Sublist.cons maker (ih _)
      | (simp only [List.map_cons]; exact List.Sublist.cons₂ maker (ih _))
      | simp

/-- The candidate list of `match_order` is sorted by the comparator. -/
theorem sorted_oppositeOrders (market_orders : List (Nat × Order))
    (taker : Order) :
    (oppositeOrders market_orders taker).Pairwise (makerLE taker.side) := by
  haveI : IsTotal Order (makerLE taker.side) := ⟨makerLE_total taker.side⟩
  haveI : IsTrans Order (makerLE taker.side) :=
    ⟨makerLE_trans taker.side⟩
  exact List.sorted_insertionSort (makerLE taker.side) _

/-- C3 (amended): the fills of a `match_order` call are produced in
best-price-first order (ascending maker price for a Buy taker, descending
for a Sell taker) and, within a price level, in ascending `created_at`
order.  When `created_at` collides there is no order-id tie-break — the
comparator compares nothing further and the stable sort keeps the
arbitrary storage iteration order. -/
theorem C3_price_time_priority (s : EngineState) (market : Market)
    (taker : Order) (now : Nat) :
    ((match_order s market taker now).1.map Match.maker_order).Pairwise
      (priceTimeLE taker.side) := by
  rcases match_order_matches s market taker now with h | ⟨mo, _, h⟩
  · rw [h]; simp
  · rw [h]
    have hsorted := sorted_oppositeOrders mo taker
    have hsub := matchLoop_makers_sublist taker
      (taker.size - taker.filled_size) (oppositeOrders mo taker)
    exact (hsorted.sublist hsub).imp fun hab => (makerLE_iff _ _ _).mp hab

/-- First maker of the C3 counterexample: id 1, added first. -/
def c3Maker1 : Order := mkOrder 1 "u1" .Sell .Limit 40000000 2000000 100

/-- Second maker: id 2, same price, same `created_at`, added second. -/
def c3Maker2 : Order := mkOrder 2 "u2" .Sell .Limit 40000000 2000000 100

/-- Book with both tied makers (storage iteration yields id 2 first). -/
def c3State : EngineState :=
  add_order (add_order emptyState btcMkt c3Maker1) btcMkt c3Maker2

/-- A taker large enough to match both tied makers. -/
def c3Taker : Order := mkOrder 9 "tkr" .Buy .Limit 40000000 4000000

/-- C3 counterexample: two resting makers with equal price and equal
`created_at`; the claim's id tie-break would match id 1 first, but the
code matches in storage iteration order — id 2 first. -/
theorem C3_cex :
    c3Maker1.created_at = c3Maker2.created_at ∧
    c3Maker1.price = c3Maker2.price ∧
    c3Maker1.id < c3Maker2.id ∧
    ((match_order c3State btcMkt c3Taker 0).1.map
      (fun m => m.maker_order.id)) = [2, 1] := by
  exact ⟨rfl, rfl, by decide, by decide⟩

/-! ## C5 — `cancel_order` -/

theorem cancel_order_eq_noIdx (s : EngineState) (oid : Nat) (user : String)
    (hidx : alookup s.uuid_to_market oid = none) :
    cancel_order s oid user = (.error .OrderNotFound, s) := by
  unfold cancel_order
  split <;> simp_all

theorem cancel_order_eq_noMarket (s : EngineState) (oid : Nat) (user : String)
    (mid : String) (hidx : alookup s.uuid_to_market oid = some mid)
    (hst : alookup s.order_storage mid = none) :
    cancel_order s oid user = (.error .OrderNotFound, s) := by
  unfold cancel_order
  split <;> simp_all

theorem cancel_order_eq_noOrder (s : EngineState) (oid : Nat) (user : String)
    (mid : String) (mo : List (Nat × Order))
    (hidx : alookup s.uuid_to_market oid = some mid)
    (hst : alookup s.order_storage mid = some mo)
    (ho : alookup mo oid = none) :
    cancel_order s oid user = (.error .OrderNotFound, s) := by
  unfold cancel_order
  split <;> simp_all

theorem cancel_order_eq_badUser (s : EngineState) (oid : Nat) (user : String)
    (mid : String) (mo : List (Nat × Order)) (o : Order)
    (hidx : alookup s.uuid_to_market oid = some mid)
    (hst : alookup s.order_storage mid = some mo)
    (ho : alookup mo oid = some o) (hu : o.user_address ≠ user) :
    cancel_order s oid user = (.error .OrderNotFound, s) := by
  unfold cancel_order
  split <;> simp_all

theorem cancel_order_eq_ok (s : EngineState) (oid : Nat) (user : String)
    (mid : String) (mo : List (Nat × Order)) (o : Order)
    (hidx : alookup s.uuid_to_market oid = some mid)
    (hst : alookup s.order_storage mid = some mo)
    (ho : alookup mo oid = some o) (hu : o.user_address = user) :
    cancel_order s oid user =
      (.ok o,
        { s with
          order_storage := ainsert mid (aerase oid mo) s.order_storage
          books :=
            match alookup s.books mid with
            | some ids => ainsert mid (ids.filter (· ≠ oid)) s.books
            | none => s.books
          uuid_to_market := aerase oid s.uuid_to_market }) := by
  unfold cancel_order
  split <;> simp_all

/-- C5: `cancel_order` returns `OrderNotFound` exactly when the id does
not reach a stored order through the index and storage (in particular for
any order already removed by a full fill or earlier cancel) or the stored
order belongs to another user; every error leaves the state untouched;
success removes the order from storage, uuid index and book and returns
it. -/
theorem C5_cancel_semantics (s : EngineState) (oid : Nat) (user : String) :
    ((cancel_order s oid user).1 = .error .OrderNotFound ↔
      storedOrder s oid = none ∨
        ∃ o, storedOrder s oid = some o ∧ o.user_address ≠ user) ∧
    ((cancel_order s oid user).1 = .error .OrderNotFound →
      (cancel_order s oid user).2 = s) ∧
    (∀ o, (cancel_order s oid user).1 = .ok o →
      storedOrder s oid = some o ∧ o.user_address = user ∧
      ∃ mid, alookup s.uuid_to_market oid = some mid ∧
        alookup (cancel_order s oid user).2.uuid_to_market oid = none ∧
        storedOrder (cancel_order s oid user).2 oid = none ∧
        (∀ mo', alookup (cancel_order s oid user).2.order_storage mid =
            some mo' → alookup mo' oid = none) ∧
        oid ∉ bookOrders (cancel_order s oid user).2 mid) := by
  rcases h1 : alookup s.uuid_to_market oid with _ | mid
  · rw [cancel_order_eq_noIdx s oid user h1]
    refine ⟨?_, fun _ => rfl, fun o hok => by cases hok⟩
    simp [storedOrder, h1]
  · rcases h2 : alookup s.order_storage mid with _ | mo
    · rw [cancel_order_eq_noMarket s oid user mid h1 h2]
      refine ⟨?_, fun _ => rfl, fun o hok => by cases hok⟩
      simp [storedOrder, h1, h2]
    · rcases h3 : alookup mo oid with _ | o
      · rw [cancel_order_eq_noOrder s oid user mid mo h1 h2 h3]
        refine ⟨?_, fun _ => rfl, fun o hok => by cases hok⟩
        simp [storedOrder, h1, h2, h3]
      · have hstored : storedOrder s oid = some o := by
          simp [storedOrder, h1, h2, h3]
        by_cases hu : o.user_address = user
        · rw [cancel_order_eq_ok s oid user mid mo o h1 h2 h3 hu]
          refine ⟨?_, ?_, ?_⟩
          · simp only [hstored]
            constructor
            · intro herr; cases herr
            · rintro (hnone | ⟨o', ho', hu'⟩)
              · cases hnone
              · cases Option.some.inj ho'
                exact absurd hu hu'
          · intro herr; cases herr
          · intro o' hok
            cases Option.some.inj (congrArg (fun e => match e with
              | Except.ok x => some x
              | Except.error _ => none) hok :
              (some o : Option Order) = some o')
            refine ⟨hstored, hu, mid, rfl, ?_, ?_, ?_, ?_⟩
            · simp [alookup_aerase_self]
            · simp [storedOrder, alookup_aerase_self]
            · intro mo' hmo'
              rw [alookup_ainsert_self] at hmo'
              cases Option.some.inj hmo'
              exact alookup_aerase_self oid mo
            · rcases hb : alookup s.books mid with _ | ids <;>
                simp [bookOrders, hb, alookup_ainsert_self, List.mem_filter]
        · rw [cancel_order_eq_badUser s oid user mid mo o h1 h2 h3 hu]
          refine ⟨?_, fun _ => rfl, fun o' hok => by cases hok⟩
          simp only [hstored]
          constructor
          · intro _; exact Or.inr ⟨o, rfl, hu⟩
          · intro _; trivial

/-- The resting order for the C5 witness. -/
def w5Maker : Order := mkOrder 21 "alice" .Sell .Limit 50000000000 100000000

/-- Book containing only `w5Maker`. -/
def w5State : EngineState := add_order emptyState btcMkt w5Maker

/-- C5 witness: the cancel theorem applied to a successful owner cancel of
the concrete resting order. -/
theorem C5_cancel_semantics_witness :
    storedOrder w5State 21 = some w5Maker ∧
    w5Maker.user_address = "alice" ∧
    ∃ mid, alookup w5State.uuid_to_market 21 = some mid ∧
      alookup (cancel_order w5State 21 "alice").2.uuid_to_market 21 = none ∧
      storedOrder (cancel_order w5State 21 "alice").2 21 = none ∧
      (∀ mo', alookup (cancel_order w5State 21 "alice").2.order_storage mid =
          some mo' → alookup mo' 21 = none) ∧
      21 ∉ bookOrders (cancel_order w5State 21 "alice").2 mid :=
  (C5_cancel_semantics w5State 21 "alice").2.2 w5Maker rfl

/-! ## C8 — invariant O1 (uuid index ↔ resting order)

Every operation pairs its storage insertion/removal with the matching
uuid-index insertion/removal.  The four transfer lemmas below cover the
four storage/index edits the adapters perform. -/

theorem consistent_emptyState : StateConsistent emptyState := by
  intro x mid
  constructor
  · intro hc; simp [emptyState, alookup] at hc
  · rintro ⟨mo, hmo, _⟩; simp [emptyState, alookup] at hmo

/-- Paired insertion (fresh id) preserves O1. -/
theorem consistent_insert (index : List (Nat × String))
    (storage : List (String × List (Nat × Order)))
    (h : IndexConsistent index storage) (mid : String)
    (mo : List (Nat × Order)) (hmo : alookup storage mid = some mo)
    (oid : Nat) (ord : Order) (hfresh : alookup index oid = none) :
    IndexConsistent (ainsert oid mid index)
      (ainsert mid (ainsert oid ord mo) storage) := by
  intro x mid'
  by_cases hx : x = oid
  · subst hx
    rw [alookup_ainsert_self]
    by_cases hmid : mid' = mid
    · subst hmid
      constructor
      · intro _
        refine ⟨_, alookup_ainsert_self _ _ _, ?_⟩
        rw [alookup_ainsert_self]
        rfl
      · intro _; rfl
    · constructor
      · intro hsome
        cases Option.some.inj hsome
        exact absurd rfl hmid
      · rintro ⟨mo', hmo', hx'⟩
        rw [alookup_ainsert_ne _ _ _ _ hmid] at hmo'
        have hidx := (h _ mid').mpr ⟨mo', hmo', hx'⟩
        rw [hfresh] at hidx
        cases hidx
  · rw [alookup_ainsert_ne _ _ _ _ hx]
    by_cases hmid : mid' = mid
    · subst hmid
      rw [h x mid']
      constructor
      · rintro ⟨mo', hmo', hx'⟩
        rw [hmo] at hmo'
        cases Option.some.inj hmo'
        refine ⟨_, alookup_ainsert_self _ _ _, ?_⟩
        rw [alookup_ainsert_ne _ _ _ _ hx]
        exact hx'
      · rintro ⟨mo', hmo', hx'⟩
        rw [alookup_ainsert_self] at hmo'
        cases Option.some.inj hmo'
        rw [alookup_ainsert_ne _ _ _ _ hx] at hx'
        exact ⟨mo, hmo, hx'⟩
    · rw [h x mid']
      constructor
      · rintro ⟨mo', hmo', hx'⟩
        exact ⟨mo', by rw [alookup_ainsert_ne _ _ _ _ hmid]; exact hmo', hx'⟩
      · rintro ⟨mo', hmo', hx'⟩
        rw [alookup_ainsert_ne _ _ _ _ hmid] at hmo'
        exact ⟨mo', hmo', hx'⟩

/-- Paired removal (of an indexed id) preserves O1. -/
theorem consistent_remove (index : List (Nat × String))
    (storage : List (String × List (Nat × Order)))
    (h : IndexConsistent index storage) (oid : Nat) (mid : String)
    (mo : List (Nat × Order)) (hidx : alookup index oid = some mid)
    (hmo : alookup storage mid = some mo) :
    IndexConsistent (aerase oid index)
      (ainsert mid (aerase oid mo) storage) := by
  intro x mid'
  by_cases hx : x = oid
  · subst hx
    rw [alookup_aerase_self]
    constructor
    · intro hc; cases hc
    · rintro ⟨mo', hmo', hx'⟩
      by_cases hmid : mid' = mid
      · subst hmid
        rw [alookup_ainsert_self] at hmo'
        cases Option.some.inj hmo'
        rw [alookup_aerase_self] at hx'
        simp at hx'
      · rw [alookup_ainsert_ne _ _ _ _ hmid] at hmo'
        have hidx' := (h x mid').mpr ⟨mo', hmo', hx'⟩
        rw [hidx] at hidx'
        cases Option.some.inj hidx'
        exact absurd rfl hmid
  · rw [alookup_aerase_ne _ _ _ hx]
    by_cases hmid : mid' = mid
    · subst hmid
      rw [h x mid']
      constructor
      · rintro ⟨mo', hmo', hx'⟩
        rw [hmo] at hmo'
        cases Option.some.inj hmo'
        refine ⟨_, alookup_ainsert_self _ _ _, ?_⟩
        rw [alookup_aerase_ne _ _ _ hx]
        exact hx'
      · rintro ⟨mo', hmo', hx'⟩
        rw [alookup_ainsert_self] at hmo'
        cases Option.some.inj hmo'
        rw [alookup_aerase_ne _ _ _ hx] at hx'
        exact ⟨mo, hmo, hx'⟩
    · rw [h x mid']
      constructor
      · rintro ⟨mo', hmo', hx'⟩
        exact ⟨mo', by rw [alookup_ainsert_ne _ _ _ _ hmid]; exact hmo', hx'⟩
      · rintro ⟨mo', hmo', hx'⟩
        rw [alookup_ainsert_ne _ _ _ _ hmid] at hmo'
        exact ⟨mo', hmo', hx'⟩

/-- Replacing a stored order in place (no index change) preserves O1. -/
theorem consistent_update (index : List (Nat × String))
    (storage : List (String × List (Nat × Order)))
    (h : IndexConsistent index storage) (mid : String)
    (mo : List (Nat × Order)) (hmo : alookup storage mid = some mo)
    (oid : Nat) (o o' : Order) (hx : alookup mo oid = some o) :
    IndexConsistent index (ainsert mid (ainsert oid o' mo) storage) := by
  intro x mid'
  by_cases hmid : mid' = mid
  · subst hmid
    rw [h x mid']
    constructor
    · rintro ⟨mo', hmo', hx'⟩
      rw [hmo] at hmo'
      cases Option.some.inj hmo'
      refine ⟨ainsert oid o' mo, alookup_ainsert_self _ _ _, ?_⟩
      by_cases hxo : x = oid
      · subst hxo; rw [alookup_ainsert_self]; rfl
      · rw [alookup_ainsert_ne _ _ _ _ hxo]; exact hx'
    · rintro ⟨mo', hmo', hx'⟩
      rw [alookup_ainsert_self] at hmo'
      cases Option.some.inj hmo'
      refine ⟨mo, hmo, ?_⟩
      by_cases hxo : x = oid
      · subst hxo; rw [hx]; rfl
      · rw [alookup_ainsert_ne _ _ _ _ hxo] at hx'; exact hx'
  · rw [h x mid']
    constructor
    · rintro ⟨mo', hmo', hx'⟩
      exact ⟨mo', by rw [alookup_ainsert_ne _ _ _ _ hmid]; exact hmo', hx'⟩
    · rintro ⟨mo', hmo', hx'⟩
      rw [alookup_ainsert_ne _ _ _ _ hmid] at hmo'
      exact ⟨mo', hmo', hx'⟩

/-- `init_market` preserves O1 (it only ever creates an empty storage
entry). -/
theorem consistent_init (s : EngineState) (market : Market)
    (h : StateConsistent s) : StateConsistent (init_market s market) := by
  rcases hst : alookup s.order_storage market.id with _ | mo
  · have hs' : (init_market s market).order_storage =
        ainsert market.id [] s.order_storage := by
      simp [init_market, hst]
    intro x mid
    rw [show (init_market s market).uuid_to_market = s.uuid_to_market from rfl,
      hs', h x mid]
    by_cases hmid : mid = market.id
    · subst hmid
      constructor
      · rintro ⟨mo', hmo', hx'⟩
        rw [hst] at hmo'
        cases hmo'
      · rintro ⟨mo', hmo', hx'⟩
        rw [alookup_ainsert_self] at hmo'
        cases Option.some.inj hmo'
        simp [alookup] at hx'
    · constructor
      · rintro ⟨mo', hmo', hx'⟩
        exact ⟨mo', by rw [alookup_ainsert_ne _ _ _ _ hmid]; exact hmo', hx'⟩
      · rintro ⟨mo', hmo', hx'⟩
        rw [alookup_ainsert_ne _ _ _ _ hmid] at hmo'
        exact ⟨mo', hmo', hx'⟩
  · have hs' : (init_market s market).order_storage = s.order_storage := by
      simp [init_market, hst]
    intro x mid
    rw [show (init_market s market).uuid_to_market = s.uuid_to_market from rfl,
      hs']
    exact h x mid

/-- `add_order` with zero remaining size only initialises the market. -/
theorem add_order_eq_zeroRemaining (s : EngineState) (market : Market)
    (order : Order) (h : order.size - order.filled_size = 0) :
    add_order s market order = init_market s market := by
  simp only [add_order, if_pos h]

/-- `add_order` of a fresh id preserves O1 (the storage insert is paired
with the index insert). -/
theorem add_order_consistent (s : EngineState) (market : Market)
    (order : Order) (h : StateConsistent s)
    (hfresh : alookup s.uuid_to_market order.id = none) :
    StateConsistent (add_order s market order) := by
  by_cases hrem : order.size - order.filled_size = 0
  · rw [add_order_eq_zeroRemaining s market order hrem]
    exact consistent_init s market h
  · have hlt : order.filled_size < order.size := by omega
    obtain ⟨h1, h2⟩ := add_order_components s market order hlt
    have hinit := consistent_init s market h
    rcases Option.isSome_iff_exists.mp
      (init_market_storage_isSome s market) with ⟨mo0, hmo0⟩
    have hcons := consistent_insert (init_market s market).uuid_to_market
      (init_market s market).order_storage hinit market.id mo0 hmo0
      order.id order
      (by rw [init_market_uuid_to_market]; exact hfresh)
    unfold StateConsistent
    rw [h1, h2, hmo0]
    rw [init_market_uuid_to_market] at hcons
    simpa using hcons

/-- `update_order_fill` preserves O1: a full fill removes storage entry
and index entry together; a partial fill touches neither key set. -/
theorem update_order_fill_consistent (s : EngineState) (oid fill now : Nat)
    (h : StateConsistent s) :
    StateConsistent (update_order_fill s oid fill now) := by
  rcases h1 : alookup s.uuid_to_market oid with _ | mid
  · rw [update_order_fill_eq_noIdx s oid fill now h1]; exact h
  · rcases h2 : alookup s.order_storage mid with _ | mo
    · rw [update_order_fill_eq_noMarket s oid fill now mid h1 h2]; exact h
    · rcases h3 : alookup mo oid with _ | o
      · rw [update_order_fill_eq_noOrder s oid fill now mid mo h1 h2 h3]
        exact h
      · rw [update_order_fill_eq_found s oid fill now mid mo o h1 h2 h3]
        by_cases hf : (apply_fill_to_order o fill now).size ≤
            (apply_fill_to_order o fill now).filled_size
        · rw [if_pos hf]
          exact consistent_remove _ _ h oid mid mo h1 h2
        · rw [if_neg hf]
          exact consistent_update _ _ h mid mo h2 oid o
            (apply_fill_to_order o fill now) h3

/-- The per-match fill loop of `match_order` preserves O1. -/
theorem foldl_update_consistent (now : Nat) :
    ∀ (ms : List Match) (s : EngineState), StateConsistent s →
      StateConsistent (ms.foldl
        (fun st m => update_order_fill st m.maker_order.id m.size now) s) := by
  intro ms
  induction ms with
  | nil => intro s h; exact h
  | cons m rest ih =>
    intro s h
    exact ih _ (update_order_fill_consistent _ _ _ _ h)

/-- `match_order` preserves O1. -/
theorem match_order_consistent (s : EngineState) (market : Market)
    (taker : Order) (now : Nat) (h : StateConsistent s) :
    StateConsistent (match_order s market taker now).2.2 := by
  rw [match_order_state]
  exact foldl_update_consistent now _ s h

/-- The maker-update pass of `apply_trades` preserves O1. -/
theorem fillMakers_consistent (taker : Order) (trades : List Trade)
    (now : Nat) :
    ∀ s : EngineState, StateConsistent s →
      StateConsistent (fillMakers s taker trades now) := by
  induction trades with
  | nil => intro s h; exact h
  | cons t ts ih =>
    intro s h
    exact ih _ (update_order_fill_consistent _ _ _ _ h)

/-- `apply_trades` with a fresh taker id preserves O1. -/
theorem apply_trades_consistent (s : EngineState) (taker : Order)
    (trades : List Trade) (market : Market) (now : Nat)
    (h : StateConsistent s)
    (hfresh : alookup s.uuid_to_market taker.id = none) :
    StateConsistent (apply_trades s taker trades market now) := by
  by_cases hcond : 0 < taker.size - (trades.map Trade.size).sum ∧
      market.min_size ≤ taker.size - (trades.map Trade.size).sum
  · simp only [apply_trades, if_pos hcond]
    exact add_order_consistent _ market _
      (fillMakers_consistent taker trades now s h)
      (fillMakers_index_none taker trades now taker.id s hfresh)
  · simp only [apply_trades, if_neg hcond]
    exact fillMakers_consistent taker trades now s h

/-- `cancel_order` preserves O1 (errors change nothing; success removes
the storage and index entries together). -/
theorem cancel_order_consistent (s : EngineState) (oid : Nat)
    (user : String) (h : StateConsistent s) :
    StateConsistent (cancel_order s oid user).2 := by
  rcases h1 : alookup s.uuid_to_market oid with _ | mid
  · rw [cancel_order_eq_noIdx s oid user h1]; exact h
  · rcases h2 : alookup s.order_storage mid with _ | mo
    · rw [cancel_order_eq_noMarket s oid user mid h1 h2]; exact h
    · rcases h3 : alookup mo oid with _ | o
      · rw [cancel_order_eq_noOrder s oid user mid mo h1 h2 h3]; exact h
      · by_cases hu : o.user_address = user
        · rw [cancel_order_eq_ok s oid user mid mo o h1 h2 h3 hu]
          exact consistent_remove _ _ h oid mid mo h1 h2
        · rw [cancel_order_eq_badUser s oid user mid mo o h1 h2 h3 hu]
          exact h

/-- One removal of `cancel_all_orders` preserves O1. -/
theorem cancelOneOrder_consistent (mid : String)
    (acc : List Order × EngineState) (oid : Nat)
    (h : StateConsistent acc.2) :
    StateConsistent (cancelOneOrder mid acc oid).2 := by
  unfold cancelOneOrder
  split
  · exact h
  · rename_i mo hmo
    split
    · exact h
    · rename_i ord hord
      have hidx : alookup acc.2.uuid_to_market oid = some mid :=
        (h oid mid).mpr ⟨mo, hmo, by rw [hord]; rfl⟩
      exact consistent_remove _ _ h oid mid mo hidx hmo

/-- The inner loop of `cancel_all_orders` preserves O1. -/
theorem foldl_cancelOne_consistent (mid : String) :
    ∀ (ids : List Nat) (acc : List Order × EngineState),
      StateConsistent acc.2 →
      StateConsistent (ids.foldl (cancelOneOrder mid) acc).2 := by
  intro ids
  induction ids with
  | nil => intro acc h; exact h
  | cons i rest ih =>
    intro acc h
    exact ih _ (cancelOneOrder_consistent mid acc i h)

/-- The per-market pass of `cancel_all_orders` preserves O1. -/
theorem cancelMarketOrders_consistent (user : String)
    (acc : List Order × EngineState) (mid : String)
    (h : StateConsistent acc.2) :
    StateConsistent (cancelMarketOrders user acc mid).2 := by
  unfold cancelMarketOrders
  split
  · exact h
  · exact foldl_cancelOne_consistent mid _ acc h

/-- The market loop of `cancel_all_orders` preserves O1. -/
theorem foldl_cancelMarket_consistent (user : String) :
    ∀ (mids : List String) (acc : List Order × EngineState),
      StateConsistent acc.2 →
      StateConsistent (mids.foldl (cancelMarketOrders user) acc).2 := by
  intro mids
  induction mids with
  | nil => intro acc h; exact h
  | cons mid rest ih =>
    intro acc h
    exact ih _ (cancelMarketOrders_consistent user acc mid h)

/-- `cancel_all_orders` preserves O1. -/
theorem cancel_all_orders_consistent (s : EngineState) (user : String)
    (market_id : Option String) (h : StateConsistent s) :
    StateConsistent (cancel_all_orders s user market_id).2 := by
  unfold cancel_all_orders
  exact foldl_cancelMarket_consistent user _ ([], s) h

/-- C8: after every adapter operation (`add_order` of a fresh id,
`match_order`, `update_order_fill`, `apply_trades` of a fresh taker,
`cancel_order`, `cancel_all_orders`), invariant O1 holds: an id is in
`uuid_to_market` iff it rests in the order storage of the indexed market
— every storage insertion/removal is paired with the index
insertion/removal. -/
theorem C8_index_consistency :
    (∀ (s : EngineState) (market : Market) (order : Order),
      StateConsistent s → alookup s.uuid_to_market order.id = none →
      StateConsistent (add_order s market order)) ∧
    (∀ (s : EngineState) (market : Market) (taker : Order) (now : Nat),
      StateConsistent s → StateConsistent (match_order s market taker now).2.2) ∧
    (∀ (s : EngineState) (oid fill now : Nat),
      StateConsistent s → StateConsistent (update_order_fill s oid fill now)) ∧
    (∀ (s : EngineState) (taker : Order) (trades : List Trade)
      (market : Market) (now : Nat),
      StateConsistent s → alookup s.uuid_to_market taker.id = none →
      StateConsistent (apply_trades s taker trades market now)) ∧
    (∀ (s : EngineState) (oid : Nat) (user : String),
      StateConsistent s → StateConsistent (cancel_order s oid user).2) ∧
    (∀ (s : EngineState) (user : String) (market_id : Option String),
      StateConsistent s →
      StateConsistent (cancel_all_orders s user market_id).2) :=
  ⟨fun s market order h hf => add_order_consistent s market order h hf,
    fun s market taker now h => match_order_consistent s market taker now h,
    fun s oid fill now h => update_order_fill_consistent s oid fill now h,
    fun s taker trades market now h hf =>
      apply_trades_consistent s taker trades market now h hf,
    fun s oid user h => cancel_order_consistent s oid user h,
    fun s user market_id h => cancel_all_orders_consistent s user market_id h⟩

/-- A fresh order for the C8 witness. -/
def w8Order : Order := mkOrder 31 "erin" .Buy .Limit 50000000000 100000000

/-- C8 witness: the invariant theorem applied to adding a fresh order to
the empty adapter. -/
theorem C8_index_consistency_witness :
    StateConsistent (add_order emptyState btcMkt w8Order) :=
  C8_index_consistency.1 emptyState btcMkt w8Order consistent_emptyState
    (by simp [emptyState, alookup])

end Exchange
